import Mathlib

set_option maxRecDepth 8000

/-!
Shallow embedding of the `transient-asm` toolchain: the TransientIR assembler
(`src/bin/transientcompile.rs`) and the Transient virtual machine
(`src/bin/transientvm.rs`).  Rust strings are modelled as lists of characters,
byte arrays as lists of naturals (values below 256), machine integers as `Nat`
with explicit range checks where the Rust code uses checked arithmetic, and
every Rust `panic!`/`assert!`/`exit` as an `Option`/`Except` failure.
-/

namespace Transient

/-- Source text is modelled as a list of characters (Rust `String`). -/
abbrev Str := List Char

/-- Shorthand turning a Lean string literal into its character-list model. -/
def S (s : String) : Str := s.data

/-- Rust `str::starts_with`, on the character-list model. -/
def strStarts (p l : Str) : Bool := p.isPrefixOf l

/-- Rust `str::split(c)`: splits on every occurrence of the separator,
keeping empty pieces (so `"a  b"` splits on `' '` into `a`, ``, `b`). -/
def splitOnChar (sep : Char) : Str → List Str
  | [] => [[]]
  | c :: cs =>
    let r := splitOnChar sep cs
    if c = sep then [] :: r
    else (c :: r.headD []) :: r.tail

/-- Digit accumulator for decimal parsing. -/
def parseDigits (acc : Nat) : Str → Option Nat
  | [] => some acc
  | c :: cs => if c.isDigit then parseDigits (acc * 10 + (c.toNat - 48)) cs else none

/-- Rust `u64::from_str_radix(s, 10)` / `usize::from_str_radix(s, 10)` on a
64-bit host: empty input fails, an optional leading `+` is allowed, every
remaining character must be a decimal digit, and values of 2^64 or more
overflow to an error. -/
def from_str_radix_10 (s : Str) : Option Nat :=
  let core : Str → Option Nat := fun t =>
    match t with
    | [] => none
    | u => (parseDigits 0 u).bind (fun v => if v < 2 ^ 64 then some v else none)
  match s with
  | '+' :: rest => core rest
  | t => core t

/-- Decimal digits of a natural number (Rust's `format!` of an integer). -/
def natToStr (n : Nat) : Str := Nat.toDigits 10 n

/-! ## The virtual machine (`transientvm.rs`) -/

/-- Rust `enum TransientMode`. -/
inductive TransientMode where
  | RUNNING
  | HALTED
deriving DecidableEq, Repr

/-- Rust `struct TransientState`.  `memory` is the fixed `TRANSIENT_MEM_MAX`
byte array (its length is the capacity).  `output` is not a field of the Rust
struct: it models the bytes the `put` opcodes print to stdout. -/
structure TransientState where
  memory : List Nat
  image_length : Nat
  program_counter : Nat
  mode : TransientMode
  output : List Str
deriving DecidableEq, Repr

/-- Rust `TransientState::new()` for a capacity-`cap` build
(`TransientState::<cap>::new()`): zeroed memory, zero image length, zero
program counter, HALTED mode. -/
def newState (cap : Nat) : TransientState :=
  { memory := List.replicate cap 0
    image_length := 0
    program_counter := 0
    mode := TransientMode.HALTED
    output := [] }

/-- Replacing the slice `[a, a + w.length)` of `mem` by `w`
(Rust `slice::copy_from_slice` into a subrange). -/
def spliceList (mem : List Nat) (a : Nat) (w : List Nat) : List Nat :=
  mem.take a ++ w ++ mem.drop (a + w.length)

/-- Rust `u64_pad_be`: right-aligns at most 8 bytes into an 8-byte array with
leading zeros; on more than 8 bytes the Rust index `8 - data.len()` underflows
and the function panics, modelled as `none`. -/
def u64_pad_be (data : List Nat) : Option (List Nat) :=
  if data.length ≤ 8 then some (List.replicate (8 - data.length) 0 ++ data) else none

/-- Total version of the padding used once the `size ≤ 8` guard has been
established. -/
def pad8 (data : List Nat) : List Nat := List.replicate (8 - data.length) 0 ++ data

/-- Rust `u64::from_be_bytes`: big-endian value of a byte list. -/
def beVal (bytes : List Nat) : Nat := bytes.foldl (fun acc b => acc * 256 + b) 0

/-- Rust `u64::to_be_bytes`: the 8 big-endian bytes of a 64-bit value. -/
def toBe8 (v : Nat) : List Nat :=
  [v / 256 ^ 7 % 256, v / 256 ^ 6 % 256, v / 256 ^ 5 % 256, v / 256 ^ 4 % 256,
   v / 256 ^ 3 % 256, v / 256 ^ 2 % 256, v / 256 % 256, v % 256]

/-- Rust `TransientState::memory_write`: asserts
`memory.len() > address + size` (strict) and copies the last `size` bytes of
`data` into `memory[address..address+size]`; the slice
`data[data.len()-size..]` itself panics when `size > data.len()`.  Both panics
are modelled as `none`. -/
def memory_write (mem : List Nat) (address : Nat) (data : List Nat) (size : Nat) :
    Option (List Nat) :=
  if address + size < mem.length then
    if size ≤ data.length then
      some (spliceList mem address ((data.drop (data.length - size)).take size))
    else none
  else none

/-- Rust `TransientState::load_image`: asserts `memory.len() >= image.len()`
(note: the offset is not part of the guard), then copies the image to
`memory[offset .. offset + image.len()]` — a copy that panics (distinct
`sliceOob` error) when the range leaves memory — and records the image
length. -/
inductive LoadErr where
  | assertTextFit
  | sliceOob
deriving DecidableEq, Repr

/-- See `LoadErr`. -/
def load_image (s : TransientState) (offset : Nat) (image : List Nat) :
    Except LoadErr TransientState :=
  if s.memory.length ≥ image.length then
    if offset + image.length ≤ s.memory.length then
      .ok { s with memory := spliceList s.memory offset image
                   image_length := image.length }
    else .error .sliceOob
  else .error .assertTextFit

/-- The `size`-byte big-endian value stored at `addr` (the Rust pair
`&self.memory[addr..][..size]` followed by `u64_pad_be` and
`u64::from_be_bytes`). -/
def readVal (s : TransientState) (addr size : Nat) : Nat :=
  beVal (pad8 ((s.memory.drop addr).take size))

/-- The operand-decoding of a fetched 8-byte instruction word. -/
structure Instruction where
  b0 : Nat
  b1 : Nat
  b2 : Nat
  b3 : Nat
  b4 : Nat
  b5 : Nat
  b6 : Nat
  b7 : Nat
deriving DecidableEq, Repr

/-- `u16::from_be_bytes([b2, b3])`: the source1 address literal. -/
def Instruction.src1 (i : Instruction) : Nat := i.b2 * 256 + i.b3

/-- `u16::from_be_bytes([b4, b5])`: the source2 address literal. -/
def Instruction.src2 (i : Instruction) : Nat := i.b4 * 256 + i.b5

/-- `u16::from_be_bytes([b6, b7])`: the destination address literal. -/
def Instruction.dest (i : Instruction) : Nat := i.b6 * 256 + i.b7

/-- The common store-and-advance tail of the arithmetic/compare opcodes:
`memory_write(dest, result.to_be_bytes(), size)` and next PC
`program_counter + 8`. -/
def writeStep (s : TransientState) (dest v size : Nat) : Option (TransientState × Nat) :=
  (memory_write s.memory dest (toBe8 v) size).map
    (fun m => ({ s with memory := m }, s.program_counter + 8))

/-- The DIV_R opcode computes `(source1 as f64 / source2 as f64) as u64` with
host floating point.  Floating-point rounding is not modelled; no claim in
this development depends on the value stored by `divr`, only on its control
flow and write bounds.  We use a rounded integer quotient (with the IEEE
`x/0 = inf`, `0/0 = NaN` casts for a zero divisor) as a stand-in. -/
def divr_value (v1 v2 : Nat) : Nat :=
  if v2 = 0 then (if v1 = 0 then 0 else 2 ^ 64 - 1) else (v1 + v2 / 2) / v2

/-- Rust `TransientState::execute_instruction`.  Decodes the instruction,
validates the three operand addresses (`assert!(len > addr)` each), loads the
`size`-byte values at both source addresses (the slice panics when
`addr + size` exceeds memory, `u64_pad_be` panics when `size > 8`), then
dispatches on the opcode.  Every panic (including `checked_*` arithmetic
failures, `%` by zero and the unknown-opcode arm) is `none`; a successful step
returns the updated state and the next program counter. -/
def executeInstruction (s : TransientState) (i : Instruction) :
    Option (TransientState × Nat) :=
  if s.memory.length ≤ i.src1 then none
  else if s.memory.length ≤ i.src2 then none
  else if s.memory.length ≤ i.dest then none
  else if s.memory.length < i.src1 + i.b1 then none
  else if 8 < i.b1 then none
  else if s.memory.length < i.src2 + i.b1 then none
  else if i.b0 = 0x01 then writeStep s i.dest (readVal s i.src1 i.b1) i.b1
  else if i.b0 = 0x02 then
    if readVal s i.src1 i.b1 + readVal s i.src2 i.b1 < 2 ^ 64 then
      writeStep s i.dest (readVal s i.src1 i.b1 + readVal s i.src2 i.b1) i.b1
    else none
  else if i.b0 = 0x03 then
    if readVal s i.src2 i.b1 ≤ readVal s i.src1 i.b1 then
      writeStep s i.dest (readVal s i.src1 i.b1 - readVal s i.src2 i.b1) i.b1
    else none
  else if i.b0 = 0x04 then
    if readVal s i.src1 i.b1 * readVal s i.src2 i.b1 < 2 ^ 64 then
      writeStep s i.dest (readVal s i.src1 i.b1 * readVal s i.src2 i.b1) i.b1
    else none
  else if i.b0 = 0x05 then
    if readVal s i.src2 i.b1 = 0 then none
    else writeStep s i.dest (readVal s i.src1 i.b1 / readVal s i.src2 i.b1) i.b1
  else if i.b0 = 0x06 then
    writeStep s i.dest (divr_value (readVal s i.src1 i.b1) (readVal s i.src2 i.b1)) i.b1
  else if i.b0 = 0x07 then
    if readVal s i.src2 i.b1 = 0 then none
    else writeStep s i.dest (readVal s i.src1 i.b1 % readVal s i.src2 i.b1) i.b1
  else if i.b0 = 0x08 then
    writeStep s i.dest (if readVal s i.src2 i.b1 < readVal s i.src1 i.b1 then 1 else 0) i.b1
  else if i.b0 = 0x09 then
    writeStep s i.dest (if readVal s i.src1 i.b1 < readVal s i.src2 i.b1 then 1 else 0) i.b1
  else if i.b0 = 0x0A then some (s, i.src1)
  else if i.b0 = 0x0B then
    if readVal s i.src2 i.b1 = 0 then some (s, s.program_counter + 8) else some (s, i.src1)
  else if i.b0 = 0x0C then
    if readVal s i.src2 i.b1 = 0 then some (s, i.src1) else some (s, s.program_counter + 8)
  else if i.b0 = 0x0D then
    some ({ s with output := s.output ++ [natToStr (readVal s i.src1 i.b1)] },
      s.program_counter + 8)
  else if i.b0 = 0x0E then
    some ({ s with output := s.output ++ [[Char.ofNat (readVal s i.src1 i.b1 % 256)]] },
      s.program_counter + 8)
  else if i.b0 = 0x0F then writeStep s i.dest s.image_length i.b1
  else if i.b0 = 0x10 then
    writeStep s i.dest (if readVal s i.src1 i.b1 = readVal s i.src2 i.b1 then 1 else 0) i.b1
  else if i.b0 = 0xFF then some ({ s with mode := TransientMode.HALTED }, s.program_counter)
  else none

/-! ## The assembler (`transientcompile.rs`) -/

/-- The assembler's structured diagnostics (`halt_compilation` exit codes
E001–E012) together with `panicWrite`, the compiler panic that can occur while
writing a variable into the image during codegen. -/
inductive CompileErr where
  | E001
  | E002
  | E003
  | E004
  | E005
  | E006
  | E007
  | E008
  | E009
  | E010
  | E011
  | E012
  | panicWrite
deriving DecidableEq, Repr

/-- Rust `enum Operation`: the abstract syntax tree nodes, each carrying its
slot tuple `(size, src1, src2, dest)` as produced by pass 8. -/
inductive Operation where
  | Mov (size src1 dest : Nat)
  | Add (size src1 src2 dest : Nat)
  | Sub (size src1 src2 dest : Nat)
  | Mul (size src1 src2 dest : Nat)
  | DivT (size src1 src2 dest : Nat)
  | DivR (size src1 src2 dest : Nat)
  | Rem (size src1 src2 dest : Nat)
  | Cgt (size src1 src2 dest : Nat)
  | Clt (size src1 src2 dest : Nat)
  | Jmp (src1 : Nat)
  | Jie (size src1 src2 : Nat)
  | Jne (size src1 src2 : Nat)
  | PutI (size src1 : Nat)
  | PutC (size src1 : Nat)
  | Imz (size dest : Nat)
  | Equ (size src1 src2 dest : Nat)
  | Hlt
deriving DecidableEq, Repr

/-- An interned immediate: the synthetic variable name derived from the token,
the parsed value and the parsed size in bits (Rust
`HashMap<u64, (usize, usize)>` keyed by the hash of the token text). -/
abbrev Inter := Str × Nat × Nat

/-- The memory map built by pass 5: variable name (without `$`) to
`(address, value, size-in-bytes)` in declaration order (Rust
`HashMap<String, (usize, u64, usize)>`; the map's iteration order is
irrelevant to the claims proved here, so insertion order is used). -/
abbrev MemMap := List (Str × Nat × Nat × Nat)

/-- The jump map built by pass 7: tag name to text-section address.  A new
binding is consed in front and lookups take the first hit, which models the
Rust `HashMap::insert` overwrite. -/
abbrev JMap := List (Str × Nat)

/-- First binding of `name` in the jump map. -/
def jmLookup (jm : JMap) (name : Str) : Option Nat :=
  match jm with
  | [] => none
  | (k, v) :: rest => if k = name then some v else jmLookup rest name

/-- First binding of `name` in the memory map. -/
def mmLookup (mm : MemMap) (name : Str) : Option (Nat × Nat × Nat) :=
  match mm with
  | [] => none
  | (k, v) :: rest => if k = name then some v else mmLookup rest name

/-- Models `DefaultHasher` hashing of the immediate token text: a
deterministic textual key derived from the token.  The Rust code uses the
64-bit SipHash of the token (collisions assumed absent); here each character's
code is printed in decimal followed by an `x` delimiter, which is injective
and, like the Rust hash, consists only of characters that cannot collide with
the `!size_value` replacement patterns of pass 3. -/
def hashToken : Str → Str
  | [] => []
  | c :: cs => Nat.toDigits 10 c.toNat ++ 'x' :: hashToken cs

/-- Pass 1: drop every line starting with `//`. -/
def pass1 (src : List Str) : List Str :=
  src.filter (fun l => !(strStarts (S "//") l))

/-- Is this interned-immediate name already present? -/
def interLookup (acc : List Inter) (name : Str) : Bool :=
  acc.any (fun e => e.1 = name)

/-- Pass 2, per token: a token starting with `!` must split on `_` into
exactly two parts (`E011`); the first part after the `!` parses as the size in
bits (`E003`), the second as the value (`E012`); textually identical tokens
(equal hashes) are interned once, in first-occurrence order. -/
def collectToken (acc : List Inter) (token : Str) : Except CompileErr (List Inter) :=
  if !(strStarts (S "!") token) then .ok acc
  else
    let parts := splitOnChar '_' token
    if parts.length ≠ 2 then .error .E011
    else
      match from_str_radix_10 ((parts.headD []).drop 1) with
      | none => .error .E003
      | some size =>
        match from_str_radix_10 (parts.getD 1 []) with
        | none => .error .E012
        | some value =>
          let name := hashToken token
          if interLookup acc name then .ok acc
          else .ok (acc ++ [(name, value, size)])

/-- Pass 2 over the tokens of one line. -/
def collectLine (acc : List Inter) : List Str → Except CompileErr (List Inter)
  | [] => .ok acc
  | t :: ts =>
    match collectToken acc t with
    | .error e => .error e
    | .ok acc2 => collectLine acc2 ts

/-- Pass 2 over the whole source, threading the accumulator. -/
def pass2Go (acc : List Inter) : List Str → Except CompileErr (List Inter)
  | [] => .ok acc
  | l :: ls =>
    match collectLine acc (splitOnChar ' ' l) with
    | .error e => .error e
    | .ok acc2 => pass2Go acc2 ls

/-- Pass 2: collect all immediates of the (comment-stripped) source. -/
def pass2 (src : List Str) : Except CompileErr (List Inter) :=
  pass2Go [] src

/-- Rust `str::replace(pattern, rep)` with a non-empty pattern, fuelled by the
string length (each step consumes at least one character, so the fuel is never
exhausted for non-empty patterns). -/
def replaceGo (pat rep : Str) : Nat → Str → Str
  | 0, s => s
  | _ + 1, [] => []
  | fuel + 1, c :: cs =>
    if strStarts pat (c :: cs) then rep ++ replaceGo pat rep fuel ((c :: cs).drop pat.length)
    else c :: replaceGo pat rep fuel cs

/-- See `replaceGo`; an empty pattern never occurs in the assembler (patterns
start with `!`). -/
def replaceStr (pat rep s : Str) : Str :=
  if pat = [] then s else replaceGo pat rep s.length s

/-- Pass 3: for each interned immediate, in the given iteration order of the
intermediates map, prepend the synthetic declaration
`set{size} ${hash} {value}` and then replace every occurrence of
`!{size}_{value}` in every line (including the just-inserted one) by
`${hash}`. -/
def pass3 (inters : List Inter) (src : List Str) : List Str :=
  inters.foldl
    (fun acc e =>
      let name := e.1
      let value := e.2.1
      let size := e.2.2
      let inserted := (S "set" ++ natToStr size ++ S " $" ++ name ++ S " " ++ natToStr value) :: acc
      inserted.map
        (replaceStr (S "!" ++ natToStr size ++ S "_" ++ natToStr value) (S "$" ++ name)))
    src

/-- Pass 4: `8 ×` the number of lines that are non-empty and start with none
of `#`, `//`, `set`. -/
def pass4 (src : List Str) : Nat :=
  8 * (src.filter (fun l =>
    !(l.isEmpty) && !(strStarts (S "#") l) && !(strStarts (S "//") l)
      && !(strStarts (S "set") l))).length

/-- Pass 5: lay out the `set` declarations.  For each line starting with
`set`: exactly 3 tokens (`E001`), the second starts with `$` (`E002`), the
name is not yet bound (`E010`), the size suffix parses and is divided by 8
(`E003`), the value parses as a `u64` (`E004`); the variable is recorded at
`ir_size_bytes + running_offset` and the offset advances by the size. -/
def pass5 (irBytes : Nat) (offset : Nat) (mm : MemMap) :
    List Str → Except CompileErr MemMap
  | [] => .ok mm
  | line :: rest =>
    if !(strStarts (S "set") line) then pass5 irBytes offset mm rest
    else
      let toks := splitOnChar ' ' line
      if toks.length ≠ 3 then .error .E001
      else if !(strStarts (S "$") (toks.getD 1 [])) then .error .E002
      else
        let name := (toks.getD 1 []).drop 1
        if (mmLookup mm name).isSome then .error .E010
        else
          match from_str_radix_10 ((toks.headD []).drop 3) with
          | none => .error .E003
          | some bits =>
            let size := bits / 8
            match from_str_radix_10 (toks.getD 2 []) with
            | none => .error .E004
            | some value =>
              pass5 irBytes (offset + size) (mm ++ [(name, irBytes + offset, value, size)]) rest

/-- Pass 6: retain only the non-empty lines not starting with `set`. -/
def pass6 (src : List Str) : List Str :=
  src.filter (fun l => !(l.isEmpty) && !(strStarts (S "set") l))

/-- Index and text of the first line starting with `#` (the Rust
`for (index, line) in source_code.iter().enumerate()` scan). -/
def findFirstTag : List Str → Option (Nat × Str)
  | [] => none
  | l :: ls =>
    if strStarts (S "#") l then some (0, l)
    else
      match findFirstTag ls with
      | none => none
      | some (i, t) => some (i + 1, t)

/-- Rust `Vec::remove(index)`. -/
def removeAt : List Str → Nat → List Str
  | [], _ => []
  | _ :: ls, 0 => ls
  | l :: ls, n + 1 => l :: removeAt ls n

/-- Pass 7's loop body, fuelled: while some line starts with `#`, bind the
first such line's name (text after the `#`) to `index × 8` and remove the
line.  Each iteration removes one line, so fuel `lines.length` is never
exhausted. -/
def pass7Go : Nat → JMap → List Str → JMap × List Str
  | 0, jm, lines => (jm, lines)
  | fuel + 1, jm, lines =>
    match findFirstTag lines with
    | none => (jm, lines)
    | some (i, l) => pass7Go fuel ((l.drop 1, i * 8) :: jm) (removeAt lines i)

/-- Pass 7: repeated scan-and-remove tag resolution. -/
def pass7 (lines : List Str) : JMap × List Str :=
  pass7Go lines.length [] lines

/-- Pass 8 argument resolution: `#tag` through the jump map (`E005`), `$var`
through the memory map (`E006`), anything else `E007`. -/
def resolveArg (jm : JMap) (mm : MemMap) (x : Str) : Except CompileErr Nat :=
  if strStarts (S "#") x then
    match jmLookup jm (x.drop 1) with
    | some a => .ok a
    | none => .error .E005
  else if strStarts (S "$") x then
    match mmLookup mm (x.drop 1) with
    | some e => .ok e.1
    | none => .error .E006
  else .error .E007

/-- Resolve all arguments of a line, left to right. -/
def resolveArgs (jm : JMap) (mm : MemMap) : List Str → Except CompileErr (List Nat)
  | [] => .ok []
  | x :: xs =>
    match resolveArg jm mm x with
    | .error e => .error e
    | .ok a =>
      match resolveArgs jm mm xs with
      | .error e => .error e
      | .ok rest => .ok (a :: rest)

/-- Pass 8's per-mnemonic dispatch: arity checks (`E008`), unknown mnemonics
(`E009`). -/
def mkOp (opStr : Str) (size : Nat) (args : List Nat) : Except CompileErr Operation :=
  if opStr = S "mov" then
    match args with
    | [a, b] => .ok (.Mov size a b)
    | _ => .error .E008
  else if opStr = S "add" then
    match args with
    | [a, b, c] => .ok (.Add size a b c)
    | _ => .error .E008
  else if opStr = S "sub" then
    match args with
    | [a, b, c] => .ok (.Sub size a b c)
    | _ => .error .E008
  else if opStr = S "mul" then
    match args with
    | [a, b, c] => .ok (.Mul size a b c)
    | _ => .error .E008
  else if opStr = S "divt" then
    match args with
    | [a, b, c] => .ok (.DivT size a b c)
    | _ => .error .E008
  else if opStr = S "divr" then
    match args with
    | [a, b, c] => .ok (.DivR size a b c)
    | _ => .error .E008
  else if opStr = S "rem" then
    match args with
    | [a, b, c] => .ok (.Rem size a b c)
    | _ => .error .E008
  else if opStr = S "cgt" then
    match args with
    | [a, b, c] => .ok (.Cgt size a b c)
    | _ => .error .E008
  else if opStr = S "clt" then
    match args with
    | [a, b, c] => .ok (.Clt size a b c)
    | _ => .error .E008
  else if opStr = S "jmp" then
    match args with
    | [a] => .ok (.Jmp a)
    | _ => .error .E008
  else if opStr = S "jie" then
    match args with
    | [a, b] => .ok (.Jie size a b)
    | _ => .error .E008
  else if opStr = S "jne" then
    match args with
    | [a, b] => .ok (.Jne size a b)
    | _ => .error .E008
  else if opStr = S "puti" then
    match args with
    | [a] => .ok (.PutI size a)
    | _ => .error .E008
  else if opStr = S "putc" then
    match args with
    | [a] => .ok (.PutC size a)
    | _ => .error .E008
  else if opStr = S "imz" then
    match args with
    | [a] => .ok (.Imz size a)
    | _ => .error .E008
  else if opStr = S "equ" then
    match args with
    | [a, b, c] => .ok (.Equ size a b c)
    | _ => .error .E008
  else if opStr = S "hlt" then .ok .Hlt
  else .error .E009

/-- Pass 8: for each remaining line, the first token's alphabetic characters
form the mnemonic and its numeric characters are parsed as bits (`E003` when
that parse fails — note this happens before the mnemonic is examined) and
divided by 8; the remaining tokens are resolved as arguments, then the
mnemonic is dispatched. -/
def pass8 (jm : JMap) (mm : MemMap) : List Str → Except CompileErr (List Operation)
  | [] => .ok []
  | line :: rest =>
    let toks := splitOnChar ' ' line
    let head := toks.headD []
    let opStr := head.filter Char.isAlpha
    match from_str_radix_10 (head.filter Char.isDigit) with
    | none => .error .E003
    | some bits =>
      let size := bits / 8
      match resolveArgs jm mm toks.tail with
      | .error e => .error e
      | .ok args =>
        match mkOp opStr size args with
        | .error e => .error e
        | .ok op =>
          match pass8 jm mm rest with
          | .error e => .error e
          | .ok ops => .ok (op :: ops)

/-- Rust `gen_binary_instruction`: the 8-byte record with the size truncated
to `u8` and the three addresses truncated to big-endian `u16`. -/
def gen_binary_instruction (opcode size src1 src2 dest : Nat) : List Nat :=
  [opcode, size % 256,
   src1 % 65536 / 256, src1 % 65536 % 256,
   src2 % 65536 / 256, src2 % 65536 % 256,
   dest % 65536 / 256, dest % 65536 % 256]

/-- The 8-byte record of one AST node (the per-variant arms of `codegen`,
with `resolve_operation_opcode` inlined): absent operand slots are zero, and
`jmp`/`hlt` also zero the size byte. -/
def genOp : Operation → List Nat
  | .Mov size src1 dest => gen_binary_instruction 0x01 size src1 0 dest
  | .Add size src1 src2 dest => gen_binary_instruction 0x02 size src1 src2 dest
  | .Sub size src1 src2 dest => gen_binary_instruction 0x03 size src1 src2 dest
  | .Mul size src1 src2 dest => gen_binary_instruction 0x04 size src1 src2 dest
  | .DivT size src1 src2 dest => gen_binary_instruction 0x05 size src1 src2 dest
  | .DivR size src1 src2 dest => gen_binary_instruction 0x06 size src1 src2 dest
  | .Rem size src1 src2 dest => gen_binary_instruction 0x07 size src1 src2 dest
  | .Cgt size src1 src2 dest => gen_binary_instruction 0x08 size src1 src2 dest
  | .Clt size src1 src2 dest => gen_binary_instruction 0x09 size src1 src2 dest
  | .Jmp src1 => gen_binary_instruction 0x0A 0 src1 0 0
  | .Jie size src1 src2 => gen_binary_instruction 0x0B size src1 src2 0
  | .Jne size src1 src2 => gen_binary_instruction 0x0C size src1 src2 0
  | .PutI size src1 => gen_binary_instruction 0x0D size src1 0 0
  | .PutC size src1 => gen_binary_instruction 0x0E size src1 0 0
  | .Imz size dest => gen_binary_instruction 0x0F size 0 0 dest
  | .Equ size src1 src2 dest => gen_binary_instruction 0x10 size src1 src2 dest
  | .Hlt => gen_binary_instruction 0xFF 0 0 0 0

/-- Total size in bytes of the declared variables. -/
def varSizeSum (mm : MemMap) : Nat :=
  mm.foldl (fun acc e => acc + e.2.2.2) 0

/-- Codegen's variable-writing loop: for each variable, write the last `size`
bytes of the value's 8-byte big-endian encoding at its recorded address.  The
Rust slice `value.to_be_bytes()[8-size..]` panics for `size > 8` and the image
slice `image[address..][..size]` panics when the range leaves the image; both
are `panicWrite`. -/
def writeVars : MemMap → List Nat → Except CompileErr (List Nat)
  | [], img => .ok img
  | (_, addr, value, size) :: rest, img =>
    if size ≤ 8 then
      if addr + size ≤ img.length then
        writeVars rest (spliceList img addr ((toBe8 value).drop (8 - size)))
      else .error .panicWrite
    else .error .panicWrite

/-- Rust `codegen`: concatenate the 8-byte records of the instruction list,
extend by `Σ widths` zero bytes, then write each declared variable at its
recorded address. -/
def codegen (ast : List Operation) (mm : MemMap) : Except CompileErr (List Nat) :=
  let text := ast.foldl (fun img op => img ++ genOp op) []
  writeVars mm (text ++ List.replicate (varSizeSum mm) 0)

/-- The whole assembler with the pass-3 iteration order of the intermediates
map supplied explicitly (`inters` must be an iteration order of the map pass 2
builds; the Rust `HashMap` fixes no particular order).  The input is the
comment-stripped line list. -/
def assembleWithOrder (inters : List Inter) (src : List Str) :
    Except CompileErr (List Nat) :=
  let src3 := pass3 inters src
  let irBytes := pass4 src3
  match pass5 irBytes 0 [] src3 with
  | .error e => .error e
  | .ok mm =>
    let src6 := pass6 src3
    let (jm, src7) := pass7 src6
    match pass8 jm mm src7 with
    | .error e => .error e
    | .ok ast => codegen ast mm

/-- `preprocess_source_code` followed by `codegen`, with the intermediates
iterated in first-insertion order. -/
def assemble (src : List Str) : Except CompileErr (List Nat) :=
  let src1 := pass1 src
  match pass2 src1 with
  | .error e => .error e
  | .ok inters => assembleWithOrder inters src1

/-- The emitted image, with diagnostics mapped to the empty image (used to
compare images for equality with decidable instances). -/
def assembleWithOrderBytes (inters : List Inter) (src : List Str) : List Nat :=
  match assembleWithOrder inters src with
  | .ok img => img
  | .error _ => []

/-- Did the order-parameterized assembly succeed? -/
def assembleWithOrderOk (inters : List Inter) (src : List Str) : Bool :=
  match assembleWithOrder inters src with
  | .ok _ => true
  | .error _ => false

/-- The single streaming pass of the claimed tag-resolution refinement.
Modelled from the spec: stream through the line list once, treating tag lines
as zero-length — `count` is the number of non-tag lines seen so far, each tag
line `#name` binds `name` to `count × 8` and is dropped, every other line is
kept and increments the count. -/
def pass7Stream (jm : JMap) (count : Nat) : List Str → JMap × List Str
  | [] => (jm, [])
  | l :: ls =>
    if strStarts (S "#") l then pass7Stream ((l.drop 1, count * 8) :: jm) count ls
    else
      let r := pass7Stream jm (count + 1) ls
      (r.1, l :: r.2)

/-- A VM state with the given memory and all other fields zero/HALTED/empty
(used for concrete instances in the theorems below). -/
def stateOf (mem : List Nat) : TransientState :=
  { memory := mem
    image_length := 0
    program_counter := 0
    mode := TransientMode.HALTED
    output := [] }

/-- A source with two distinct immediates, used to exhibit the dependence of
the emitted image on the pass-3 iteration order of the intermediates map. -/
def twoImmSrc : List Str := [S "puti8 !8_1", S "puti8 !8_2"]

/-- The intermediates pass 2 collects for `twoImmSrc` (the error branch does
not occur, as the theorem about it proves). -/
def twoImmInters : List Inter :=
  match pass2 (pass1 twoImmSrc) with
  | .ok l => l
  | .error _ => []

/-! ## Helper lemmas about slice replacement -/

theorem spliceList_length (mem : List Nat) (a : Nat) (w : List Nat)
    (h : a + w.length ≤ mem.length) : (spliceList mem a w).length = mem.length := by
  simp only [spliceList, List.length_append, List.length_take, List.length_drop]
  omega

theorem spliceList_getElem? (mem : List Nat) (a : Nat) (w : List Nat)
    (h : a + w.length ≤ mem.length) (k : Nat) :
    (spliceList mem a w)[k]? =
      if a ≤ k ∧ k < a + w.length then w[k - a]? else mem[k]? := by
  have ha : min a mem.length = a := by omega
  simp only [spliceList, List.getElem?_append, List.length_append, List.length_take,
    List.getElem?_take, List.getElem?_drop, ha]
  split_ifs <;>
    first
      | rfl
      | omega
      | (have he : a + w.length + (k - (a + w.length)) = k := by omega
         rw [he])

theorem slice_spliceList_eq (mem : List Nat) (a : Nat) (w : List Nat)
    (h : a + w.length ≤ mem.length) :
    ((spliceList mem a w).drop a).take w.length = w := by
  apply List.ext_getElem?
  intro i
  rw [List.getElem?_take, List.getElem?_drop]
  split_ifs with h1
  · rw [spliceList_getElem? mem a w h (a + i)]
    have hc : a ≤ a + i ∧ a + i < a + w.length := by omega
    rw [if_pos hc]
    have he : a + i - a = i := by omega
    rw [he]
  · exact (List.getElem?_eq_none (by omega)).symm

theorem slice_spliceList_disjoint (mem : List Nat) (a : Nat) (w : List Nat) (b n : Nat)
    (h : a + w.length ≤ mem.length) (hd : b + n ≤ a ∨ a + w.length ≤ b) :
    ((spliceList mem a w).drop b).take n = (mem.drop b).take n := by
  apply List.ext_getElem?
  intro i
  rw [List.getElem?_take, List.getElem?_drop, List.getElem?_take, List.getElem?_drop]
  split_ifs with h1
  · rw [spliceList_getElem? mem a w h (b + i)]
    have hc : ¬ (a ≤ b + i ∧ b + i < a + w.length) := by omega
    rw [if_neg hc]
  · rfl

theorem spliceList_spliceList (mem : List Nat) (a : Nat) (w w' : List Nat)
    (h : a + w.length ≤ mem.length) (hl : w'.length = w.length) :
    spliceList (spliceList mem a w) a w' = spliceList mem a w' := by
  apply List.ext_getElem?
  intro k
  have hlen : (spliceList mem a w).length = mem.length := spliceList_length mem a w h
  rw [spliceList_getElem? (spliceList mem a w) a w' (by omega) k,
    spliceList_getElem? mem a w' (by omega) k]
  split_ifs with h1
  · rfl
  · rw [spliceList_getElem? mem a w h k]
    rw [if_neg (by omega)]

theorem spliceList_last (mem : List Nat) (a : Nat) (w : List Nat)
    (h : a + w.length < mem.length) :
    (spliceList mem a w)[mem.length - 1]? = mem[mem.length - 1]? := by
  rw [spliceList_getElem? mem a w (by omega) (mem.length - 1)]
  rw [if_neg (by omega)]

theorem toBe8_length (v : Nat) : (toBe8 v).length = 8 := rfl

theorem toBe8_drop_length (v n : Nat) (h : n ≤ 8) :
    ((toBe8 v).drop (8 - n)).length = n := by
  rw [List.length_drop, toBe8_length]
  omega

/-! ## Helper lemmas about the VM step -/

theorem memory_write_none (mem : List Nat) (a : Nat) (data : List Nat) (n : Nat)
    (h : mem.length ≤ a + n) : memory_write mem a data n = none := by
  unfold memory_write
  rw [if_neg (by omega)]

theorem memory_write_some (mem : List Nat) (a : Nat) (data : List Nat) (n : Nat)
    (m' : List Nat) (h : memory_write mem a data n = some m') :
    a + n < mem.length ∧ m'.length = mem.length ∧
      m'[mem.length - 1]? = mem[mem.length - 1]? := by
  unfold memory_write at h
  split_ifs at h with h1 h2
  obtain rfl : spliceList mem a ((data.drop (data.length - n)).take n) = m' :=
    Option.some.injEq .. |>.mp h
  have hw : ((data.drop (data.length - n)).take n).length = n := by
    rw [List.length_take, List.length_drop]
    omega
  refine ⟨h1, ?_, ?_⟩
  · rw [spliceList_length _ _ _ (by omega)]
  · rw [spliceList_last _ _ _ (by omega)]

theorem writeStep_some (s : TransientState) (d v n : Nat) (s' : TransientState)
    (pc' : Nat) (h : writeStep s d v n = some (s', pc')) :
    pc' = s.program_counter + 8 ∧ s'.memory.length = s.memory.length ∧
      s'.memory[s.memory.length - 1]? = s.memory[s.memory.length - 1]? ∧
      s'.program_counter = s.program_counter := by
  unfold writeStep at h
  obtain ⟨m, hm, hpair⟩ := Option.map_eq_some'.mp h
  obtain ⟨hs, hpc⟩ := Prod.mk.injEq .. |>.mp hpair
  obtain ⟨h1, h2, h3⟩ := memory_write_some _ _ _ _ _ hm
  subst hs
  exact ⟨hpc.symm, h2, h3, rfl⟩

theorem writeStep_eq (s : TransientState) (d v n : Nat)
    (h1 : d + n < s.memory.length) (h2 : n ≤ 8) :
    writeStep s d v n =
      some ({ s with memory := spliceList s.memory d ((toBe8 v).drop (8 - n)) },
        s.program_counter + 8) := by
  unfold writeStep memory_write
  rw [if_pos h1, if_pos (by rw [toBe8_length]; exact h2)]
  rw [toBe8_length]
  rw [List.take_of_length_le (by rw [toBe8_drop_length v n h2])]
  rfl

set_option maxHeartbeats 2000000 in
/-- One characterization of every successful `execute_instruction` step: the
operand guards all passed, the memory length and the final memory byte are
unchanged (so is the `program_counter` field, which only `run` assigns), and
the returned next program counter is `program_counter + 8` except for `hlt`,
`jmp` and taken `jie`/`jne` branches. -/
theorem executeInstruction_char (s : TransientState) (i : Instruction)
    (s' : TransientState) (pc' : Nat)
    (h : executeInstruction s i = some (s', pc')) :
    (i.src1 < s.memory.length ∧ i.src2 < s.memory.length ∧
      i.dest < s.memory.length ∧ i.src1 + i.b1 ≤ s.memory.length ∧
      i.b1 ≤ 8 ∧ i.src2 + i.b1 ≤ s.memory.length) ∧
    (s'.memory.length = s.memory.length ∧
      s'.memory[s.memory.length - 1]? = s.memory[s.memory.length - 1]? ∧
      s'.program_counter = s.program_counter) ∧
    (pc' = s.program_counter + 8 ∨
      (i.b0 = 0xFF ∧ pc' = s.program_counter) ∨
      (i.b0 = 0x0A ∧ pc' = i.src1) ∨
      (i.b0 = 0x0B ∧ readVal s i.src2 i.b1 ≠ 0 ∧ pc' = i.src1) ∨
      (i.b0 = 0x0C ∧ readVal s i.src2 i.b1 = 0 ∧ pc' = i.src1)) := by
  have wtac : ∀ (d v : Nat) (hw : writeStep s d v i.b1 = some (s', pc')),
      ¬ s.memory.length ≤ i.src1 → ¬ s.memory.length ≤ i.src2 →
      ¬ s.memory.length ≤ i.dest → ¬ s.memory.length < i.src1 + i.b1 →
      ¬ 8 < i.b1 → ¬ s.memory.length < i.src2 + i.b1 →
      (i.src1 < s.memory.length ∧ i.src2 < s.memory.length ∧
        i.dest < s.memory.length ∧ i.src1 + i.b1 ≤ s.memory.length ∧
        i.b1 ≤ 8 ∧ i.src2 + i.b1 ≤ s.memory.length) ∧
      (s'.memory.length = s.memory.length ∧
        s'.memory[s.memory.length - 1]? = s.memory[s.memory.length - 1]? ∧
        s'.program_counter = s.program_counter) ∧
      (pc' = s.program_counter + 8 ∨
        (i.b0 = 0xFF ∧ pc' = s.program_counter) ∨
        (i.b0 = 0x0A ∧ pc' = i.src1) ∨
        (i.b0 = 0x0B ∧ readVal s i.src2 i.b1 ≠ 0 ∧ pc' = i.src1) ∨
        (i.b0 = 0x0C ∧ readVal s i.src2 i.b1 = 0 ∧ pc' = i.src1)) := by
    intro d v hw g1 g2 g3 g4 g5 g6
    obtain ⟨h1, h2, h3, h4⟩ := writeStep_some _ _ _ _ _ _ hw
    exact ⟨⟨by omega, by omega, by omega, by omega, by omega, by omega⟩,
      ⟨h2, h3, h4⟩, Or.inl h1⟩
  unfold executeInstruction at h
  by_cases g1 : s.memory.length ≤ i.src1
  · rw [if_pos g1] at h
    exact Option.noConfusion h
  rw [if_neg g1] at h
  by_cases g2 : s.memory.length ≤ i.src2
  · rw [if_pos g2] at h
    exact Option.noConfusion h
  rw [if_neg g2] at h
  by_cases g3 : s.memory.length ≤ i.dest
  · rw [if_pos g3] at h
    exact Option.noConfusion h
  rw [if_neg g3] at h
  by_cases g4 : s.memory.length < i.src1 + i.b1
  · rw [if_pos g4] at h
    exact Option.noConfusion h
  rw [if_neg g4] at h
  by_cases g5 : 8 < i.b1
  · rw [if_pos g5] at h
    exact Option.noConfusion h
  rw [if_neg g5] at h
  by_cases g6 : s.memory.length < i.src2 + i.b1
  · rw [if_pos g6] at h
    exact Option.noConfusion h
  rw [if_neg g6] at h
  by_cases o1 : i.b0 = 0x01
  · rw [if_pos o1] at h
    exact wtac _ _ h g1 g2 g3 g4 g5 g6
  rw [if_neg o1] at h
  by_cases o2 : i.b0 = 0x02
  · rw [if_pos o2] at h
    by_cases c : readVal s i.src1 i.b1 + readVal s i.src2 i.b1 < 2 ^ 64
    · rw [if_pos c] at h
      exact wtac _ _ h g1 g2 g3 g4 g5 g6
    · rw [if_neg c] at h
      exact Option.noConfusion h
  rw [if_neg o2] at h
  by_cases o3 : i.b0 = 0x03
  · rw [if_pos o3] at h
    by_cases c : readVal s i.src2 i.b1 ≤ readVal s i.src1 i.b1
    · rw [if_pos c] at h
      exact wtac _ _ h g1 g2 g3 g4 g5 g6
    · rw [if_neg c] at h
      exact Option.noConfusion h
  rw [if_neg o3] at h
  by_cases o4 : i.b0 = 0x04
  · rw [if_pos o4] at h
    by_cases c : readVal s i.src1 i.b1 * readVal s i.src2 i.b1 < 2 ^ 64
    · rw [if_pos c] at h
      exact wtac _ _ h g1 g2 g3 g4 g5 g6
    · rw [if_neg c] at h
      exact Option.noConfusion h
  rw [if_neg o4] at h
  by_cases o5 : i.b0 = 0x05
  · rw [if_pos o5] at h
    by_cases c : readVal s i.src2 i.b1 = 0
    · rw [if_pos c] at h
      exact Option.noConfusion h
    · rw [if_neg c] at h
      exact wtac _ _ h g1 g2 g3 g4 g5 g6
  rw [if_neg o5] at h
  by_cases o6 : i.b0 = 0x06
  · rw [if_pos o6] at h
    exact wtac _ _ h g1 g2 g3 g4 g5 g6
  rw [if_neg o6] at h
  by_cases o7 : i.b0 = 0x07
  · rw [if_pos o7] at h
    by_cases c : readVal s i.src2 i.b1 = 0
    · rw [if_pos c] at h
      exact Option.noConfusion h
    · rw [if_neg c] at h
      exact wtac _ _ h g1 g2 g3 g4 g5 g6
  rw [if_neg o7] at h
  by_cases o8 : i.b0 = 0x08
  · rw [if_pos o8] at h
    exact wtac _ _ h g1 g2 g3 g4 g5 g6
  rw [if_neg o8] at h
  by_cases o9 : i.b0 = 0x09
  · rw [if_pos o9] at h
    exact wtac _ _ h g1 g2 g3 g4 g5 g6
  rw [if_neg o9] at h
  by_cases o10 : i.b0 = 0x0A
  · rw [if_pos o10] at h
    simp only [Option.some.injEq, Prod.mk.injEq] at h
    obtain ⟨hs, hpc⟩ := h
    subst hs
    subst hpc
    refine ⟨⟨by omega, by omega, by omega, by omega, by omega, by omega⟩,
      ⟨rfl, rfl, rfl⟩, ?_⟩
    exact Or.inr (Or.inr (Or.inl ⟨o10, rfl⟩))
  rw [if_neg o10] at h
  by_cases o11 : i.b0 = 0x0B
  · rw [if_pos o11] at h
    by_cases c : readVal s i.src2 i.b1 = 0
    · rw [if_pos c] at h
      simp only [Option.some.injEq, Prod.mk.injEq] at h
      obtain ⟨hs, hpc⟩ := h
      subst hs
      subst hpc
      exact ⟨⟨by omega, by omega, by omega, by omega, by omega, by omega⟩,
        ⟨rfl, rfl, rfl⟩, Or.inl rfl⟩
    · rw [if_neg c] at h
      simp only [Option.some.injEq, Prod.mk.injEq] at h
      obtain ⟨hs, hpc⟩ := h
      subst hs
      subst hpc
      refine ⟨⟨by omega, by omega, by omega, by omega, by omega, by omega⟩,
        ⟨rfl, rfl, rfl⟩, ?_⟩
      exact Or.inr (Or.inr (Or.inr (Or.inl ⟨o11, c, rfl⟩)))
  rw [if_neg o11] at h
  by_cases o12 : i.b0 = 0x0C
  · rw [if_pos o12] at h
    by_cases c : readVal s i.src2 i.b1 = 0
    · rw [if_pos c] at h
      simp only [Option.some.injEq, Prod.mk.injEq] at h
      obtain ⟨hs, hpc⟩ := h
      subst hs
      subst hpc
      refine ⟨⟨by omega, by omega, by omega, by omega, by omega, by omega⟩,
        ⟨rfl, rfl, rfl⟩, ?_⟩
      exact Or.inr (Or.inr (Or.inr (Or.inr ⟨o12, c, rfl⟩)))
    · rw [if_neg c] at h
      simp only [Option.some.injEq, Prod.mk.injEq] at h
      obtain ⟨hs, hpc⟩ := h
      subst hs
      subst hpc
      exact ⟨⟨by omega, by omega, by omega, by omega, by omega, by omega⟩,
        ⟨rfl, rfl, rfl⟩, Or.inl rfl⟩
  rw [if_neg o12] at h
  by_cases o13 : i.b0 = 0x0D
  · rw [if_pos o13] at h
    simp only [Option.some.injEq, Prod.mk.injEq] at h
    obtain ⟨hs, hpc⟩ := h
    subst hs
    subst hpc
    refine ⟨⟨by omega, by omega, by omega, by omega, by omega, by omega⟩,
      ⟨rfl, rfl, rfl⟩, ?_⟩
    exact Or.inl rfl
  rw [if_neg o13] at h
  by_cases o14 : i.b0 = 0x0E
  · rw [if_pos o14] at h
    simp only [Option.some.injEq, Prod.mk.injEq] at h
    obtain ⟨hs, hpc⟩ := h
    subst hs
    subst hpc
    refine ⟨⟨by omega, by omega, by omega, by omega, by omega, by omega⟩,
      ⟨rfl, rfl, rfl⟩, ?_⟩
    exact Or.inl rfl
  rw [if_neg o14] at h
  by_cases o15 : i.b0 = 0x0F
  · rw [if_pos o15] at h
    exact wtac _ _ h g1 g2 g3 g4 g5 g6
  rw [if_neg o15] at h
  by_cases o16 : i.b0 = 0x10
  · rw [if_pos o16] at h
    exact wtac _ _ h g1 g2 g3 g4 g5 g6
  rw [if_neg o16] at h
  by_cases o17 : i.b0 = 0xFF
  · rw [if_pos o17] at h
    simp only [Option.some.injEq, Prod.mk.injEq] at h
    obtain ⟨hs, hpc⟩ := h
    subst hs
    subst hpc
    refine ⟨⟨by omega, by omega, by omega, by omega, by omega, by omega⟩,
      ⟨rfl, rfl, rfl⟩, ?_⟩
    exact Or.inr (Or.inl ⟨o17, rfl⟩)
  rw [if_neg o17] at h
  exact Option.noConfusion h

/-- Successful `mov`: under the guards, the step replaces the `size` bytes at
the destination by the big-endian tail of the value read at `src1` and
advances the program counter by 8. -/
theorem executeInstruction_mov_eq (s : TransientState) (i : Instruction)
    (hop : i.b0 = 0x01)
    (h1 : i.src1 < s.memory.length) (h2 : i.src2 < s.memory.length)
    (h3 : i.dest < s.memory.length)
    (h4 : i.src1 + i.b1 ≤ s.memory.length) (h5 : i.b1 ≤ 8)
    (h6 : i.src2 + i.b1 ≤ s.memory.length) (h7 : i.dest + i.b1 < s.memory.length) :
    executeInstruction s i =
      some ({ s with
          memory :=
            spliceList s.memory i.dest
              ((toBe8 (readVal s i.src1 i.b1)).drop (8 - i.b1)) },
        s.program_counter + 8) := by
  have g1 : ¬ s.memory.length ≤ i.src1 := by omega
  have g2 : ¬ s.memory.length ≤ i.src2 := by omega
  have g3 : ¬ s.memory.length ≤ i.dest := by omega
  have g4 : ¬ s.memory.length < i.src1 + i.b1 := by omega
  have g5 : ¬ 8 < i.b1 := by omega
  have g6 : ¬ s.memory.length < i.src2 + i.b1 := by omega
  unfold executeInstruction
  rw [if_neg g1, if_neg g2, if_neg g3, if_neg g4, if_neg g5, if_neg g6, if_pos hop]
  exact writeStep_eq s i.dest _ i.b1 h7 h5

/-- Successful `equ`: under the guards, the step stores the boolean
comparison of the two values read (not of the address literals) at the
destination and advances the program counter by 8. -/
theorem executeInstruction_equ_eq (s : TransientState) (i : Instruction)
    (hop : i.b0 = 0x10)
    (h1 : i.src1 < s.memory.length) (h2 : i.src2 < s.memory.length)
    (h3 : i.dest < s.memory.length)
    (h4 : i.src1 + i.b1 ≤ s.memory.length) (h5 : i.b1 ≤ 8)
    (h6 : i.src2 + i.b1 ≤ s.memory.length) (h7 : i.dest + i.b1 < s.memory.length) :
    executeInstruction s i =
      some ({ s with
          memory :=
            spliceList s.memory i.dest
              ((toBe8 (if readVal s i.src1 i.b1 = readVal s i.src2 i.b1 then 1 else 0)).drop
                (8 - i.b1)) },
        s.program_counter + 8) := by
  have g1 : ¬ s.memory.length ≤ i.src1 := by omega
  have g2 : ¬ s.memory.length ≤ i.src2 := by omega
  have g3 : ¬ s.memory.length ≤ i.dest := by omega
  have g4 : ¬ s.memory.length < i.src1 + i.b1 := by omega
  have g5 : ¬ 8 < i.b1 := by omega
  have g6 : ¬ s.memory.length < i.src2 + i.b1 := by omega
  have o1 : ¬ i.b0 = 0x01 := by omega
  have o2 : ¬ i.b0 = 0x02 := by omega
  have o3 : ¬ i.b0 = 0x03 := by omega
  have o4 : ¬ i.b0 = 0x04 := by omega
  have o5 : ¬ i.b0 = 0x05 := by omega
  have o6 : ¬ i.b0 = 0x06 := by omega
  have o7 : ¬ i.b0 = 0x07 := by omega
  have o8 : ¬ i.b0 = 0x08 := by omega
  have o9 : ¬ i.b0 = 0x09 := by omega
  have o10 : ¬ i.b0 = 0x0A := by omega
  have o11 : ¬ i.b0 = 0x0B := by omega
  have o12 : ¬ i.b0 = 0x0C := by omega
  have o13 : ¬ i.b0 = 0x0D := by omega
  have o14 : ¬ i.b0 = 0x0E := by omega
  have o15 : ¬ i.b0 = 0x0F := by omega
  unfold executeInstruction
  rw [if_neg g1, if_neg g2, if_neg g3, if_neg g4, if_neg g5, if_neg g6,
    if_neg o1, if_neg o2, if_neg o3, if_neg o4, if_neg o5, if_neg o6, if_neg o7,
    if_neg o8, if_neg o9, if_neg o10, if_neg o11, if_neg o12, if_neg o13, if_neg o14,
    if_neg o15, if_pos hop]
  exact writeStep_eq s i.dest _ i.b1 h7 h5

example : splitOnChar ' ' (S "a  b") = [S "a", S "", S "b"] := by decide

example : assemble [S "hlt"] = .error .E003 := by rfl

example : assemble [S "hlt0"] = .ok [0xFF, 0, 0, 0, 0, 0, 0, 0] := by rfl

example :
    assemble [S "set8 $c 65", S "putc8 $c", S "hlt0"] =
    .ok [0x0E, 1, 0, 16, 0, 0, 0, 0,
         0xFF, 0, 0, 0, 0, 0, 0, 0,
         0x41] := by rfl

example :
    assemble [S "#loop", S "puti8 !8_7", S "jmp0 #loop"] =
    .ok [0x0D, 1, 0, 16, 0, 0, 0, 0,
         0x0A, 0, 0, 0, 0, 0, 0, 0,
         7] := by rfl

example : from_str_radix_10 (S "") = none := by decide

example : from_str_radix_10 (S "123") = some 123 := by decide

example :
    executeInstruction
      { memory := [1, 2, 0, 0, 0, 0, 0, 0], image_length := 0, program_counter := 0,
        mode := .HALTED, output := [] }
      { b0 := 1, b1 := 2, b2 := 0, b3 := 0, b4 := 0, b5 := 0, b6 := 0, b7 := 1 } =
    some ({ memory := [1, 1, 2, 0, 0, 0, 0, 0], image_length := 0, program_counter := 0,
            mode := .HALTED, output := [] }, 8) := by decide


/-! ## Claim theorems (VM) -/

/-- C2, counterexample: with capacity 8, `load_image(offset = 4, image of 8
bytes)` passes the guard the code actually has — `capacity ≥ len(image)`,
which ignores the offset — and then aborts inside the copy itself with an
out-of-bounds slice panic.  This refutes the claim that the checked
precondition is `capacity ≥ offset + len(image)` and that any violation is
reported by the guard itself, never by an out-of-bounds copy. -/
theorem C2_load_image_counterexample :
    load_image (newState 8) 4 [1, 2, 3, 4, 5, 6, 7, 8] = .error .sliceOob := by rfl

/-- C2, amended: `load_image` asserts only `capacity ≥ len(image)` (the
offset is not part of the guard); whenever `offset + len(image) ≤ capacity`
the load succeeds, the copy stays within bounds (the memory keeps its length
and holds the image at `[offset, offset + len(image))`), and `image_length`
is set to `len(image)`. -/
theorem C2_load_image_inbounds (s : TransientState) (offset : Nat) (image : List Nat)
    (h : offset + image.length ≤ s.memory.length) :
    ∃ m : List Nat,
      load_image s offset image =
        .ok { s with memory := m, image_length := image.length } ∧
      m.length = s.memory.length ∧ (m.drop offset).take image.length = image := by
  have hg : s.memory.length ≥ image.length := by omega
  refine ⟨spliceList s.memory offset image, ?_, spliceList_length _ _ _ h,
    slice_spliceList_eq _ _ _ h⟩
  unfold load_image
  rw [if_pos hg, if_pos h]

theorem C2_load_image_inbounds_witness :
    2 + ([9, 7] : List Nat).length ≤ (newState 8).memory.length ∧
    ∃ m : List Nat,
      load_image (newState 8) 2 [9, 7] =
        .ok { newState 8 with memory := m, image_length := ([9, 7] : List Nat).length } ∧
      m.length = (newState 8).memory.length ∧
      (m.drop 2).take ([9, 7] : List Nat).length = [9, 7] :=
  ⟨by decide, C2_load_image_inbounds (newState 8) 2 [9, 7] (by decide)⟩

/-- C4: executing `equ` compares the `size`-byte values loaded (big-endian,
zero-extended) from the two source addresses — not the address literals — and
stores 1 at the destination when they are equal, 0 otherwise, advancing the
program counter by 8 (the same dereference-and-store shape as `cgt`/`clt`). -/
theorem C4_equ_compares_values (s : TransientState) (i : Instruction)
    (hop : i.b0 = 0x10)
    (h1 : i.src1 < s.memory.length) (h2 : i.src2 < s.memory.length)
    (h3 : i.dest < s.memory.length)
    (h4 : i.src1 + i.b1 ≤ s.memory.length) (h5 : i.b1 ≤ 8)
    (h6 : i.src2 + i.b1 ≤ s.memory.length) (h7 : i.dest + i.b1 < s.memory.length) :
    ∃ m : List Nat,
      executeInstruction s i = some ({ s with memory := m }, s.program_counter + 8) ∧
      m.length = s.memory.length ∧
      (m.drop i.dest).take i.b1 =
        (toBe8 (if readVal s i.src1 i.b1 = readVal s i.src2 i.b1 then 1 else 0)).drop
          (8 - i.b1) := by
  have hwlen : ((toBe8 (if readVal s i.src1 i.b1 = readVal s i.src2 i.b1 then 1 else 0)).drop
      (8 - i.b1)).length = i.b1 := toBe8_drop_length _ _ h5
  refine ⟨_, executeInstruction_equ_eq s i hop h1 h2 h3 h4 h5 h6 h7,
    spliceList_length _ _ _ (by omega), ?_⟩
  have hs := slice_spliceList_eq s.memory i.dest
    ((toBe8 (if readVal s i.src1 i.b1 = readVal s i.src2 i.b1 then 1 else 0)).drop
      (8 - i.b1)) (by omega)
  rw [hwlen] at hs
  exact hs

theorem C4_equ_compares_values_witness :
    ((⟨0x10, 1, 0, 0, 0, 2, 0, 4⟩ : Instruction).b0 = 0x10 ∧
      (⟨0x10, 1, 0, 0, 0, 2, 0, 4⟩ : Instruction).b1 ≤ 8) ∧
    ∃ m : List Nat,
      executeInstruction (stateOf [5, 0, 5, 0, 0, 0, 0, 0]) ⟨0x10, 1, 0, 0, 0, 2, 0, 4⟩ =
        some ({ stateOf [5, 0, 5, 0, 0, 0, 0, 0] with memory := m },
          (stateOf [5, 0, 5, 0, 0, 0, 0, 0]).program_counter + 8) ∧
      m.length = (stateOf [5, 0, 5, 0, 0, 0, 0, 0]).memory.length ∧
      (m.drop (⟨0x10, 1, 0, 0, 0, 2, 0, 4⟩ : Instruction).dest).take
          (⟨0x10, 1, 0, 0, 0, 2, 0, 4⟩ : Instruction).b1 =
        (toBe8 (if readVal (stateOf [5, 0, 5, 0, 0, 0, 0, 0])
              (⟨0x10, 1, 0, 0, 0, 2, 0, 4⟩ : Instruction).src1
              (⟨0x10, 1, 0, 0, 0, 2, 0, 4⟩ : Instruction).b1 =
            readVal (stateOf [5, 0, 5, 0, 0, 0, 0, 0])
              (⟨0x10, 1, 0, 0, 0, 2, 0, 4⟩ : Instruction).src2
              (⟨0x10, 1, 0, 0, 0, 2, 0, 4⟩ : Instruction).b1 then 1 else 0)).drop
          (8 - (⟨0x10, 1, 0, 0, 0, 2, 0, 4⟩ : Instruction).b1) :=
  ⟨⟨by decide, by decide⟩,
    C4_equ_compares_values (stateOf [5, 0, 5, 0, 0, 0, 0, 0]) ⟨0x10, 1, 0, 0, 0, 2, 0, 4⟩
      (by decide) (by decide) (by decide) (by decide) (by decide) (by decide)
      (by decide) (by decide)⟩

/-- C7, counterexample: `mov` is not idempotent for overlapping ranges.  With
`size = 2`, `src1 = 0`, `dest = 1` on memory `[1, 2, 0, …]`, one execution
gives `[1, 1, 2, 0, …]` and a second execution gives `[1, 1, 1, 0, …]`: the
second execution changes memory again, refuting idempotence "for all
src1/dest address pairs including overlapping ranges". -/
theorem C7_mov_overlap_counterexample :
    executeInstruction (stateOf [1, 2, 0, 0, 0, 0, 0, 0]) ⟨0x01, 2, 0, 0, 0, 0, 0, 1⟩ =
      some (stateOf [1, 1, 2, 0, 0, 0, 0, 0], 8) ∧
    executeInstruction (stateOf [1, 1, 2, 0, 0, 0, 0, 0]) ⟨0x01, 2, 0, 0, 0, 0, 0, 1⟩ =
      some (stateOf [1, 1, 1, 0, 0, 0, 0, 0], 8) ∧
    stateOf [1, 1, 1, 0, 0, 0, 0, 0] ≠ stateOf [1, 1, 2, 0, 0, 0, 0, 0] :=
  ⟨by decide, by decide, by decide⟩

/-- C7, amended: `mov` is idempotent whenever the source and destination byte
ranges `[src1, src1 + size)` and `[dest, dest + size)` do not overlap:
executing the instruction a second time returns exactly the state and next
program counter of the first execution.  (The counterexample shows the
original claim fails for overlapping ranges.) -/
theorem C7_mov_idempotent_disjoint (s : TransientState) (i : Instruction)
    (hop : i.b0 = 0x01)
    (h1 : i.src1 < s.memory.length) (h2 : i.src2 < s.memory.length)
    (h3 : i.dest < s.memory.length)
    (h4 : i.src1 + i.b1 ≤ s.memory.length) (h5 : i.b1 ≤ 8)
    (h6 : i.src2 + i.b1 ≤ s.memory.length) (h7 : i.dest + i.b1 < s.memory.length)
    (hdisj : i.src1 + i.b1 ≤ i.dest ∨ i.dest + i.b1 ≤ i.src1) :
    ∃ r : TransientState × Nat,
      executeInstruction s i = some r ∧ executeInstruction r.1 i = some r := by
  have hwlen : ((toBe8 (readVal s i.src1 i.b1)).drop (8 - i.b1)).length = i.b1 :=
    toBe8_drop_length _ _ h5
  have e1 := executeInstruction_mov_eq s i hop h1 h2 h3 h4 h5 h6 h7
  refine ⟨({ s with
      memory :=
        spliceList s.memory i.dest
          ((toBe8 (readVal s i.src1 i.b1)).drop (8 - i.b1)) },
    s.program_counter + 8), e1, ?_⟩
  have hlen : (spliceList s.memory i.dest
      ((toBe8 (readVal s i.src1 i.b1)).drop (8 - i.b1))).length = s.memory.length :=
    spliceList_length _ _ _ (by omega)
  have hread : readVal
      { s with
        memory :=
          spliceList s.memory i.dest
            ((toBe8 (readVal s i.src1 i.b1)).drop (8 - i.b1)) } i.src1 i.b1
      = readVal s i.src1 i.b1 := by
    show beVal (pad8 (((spliceList s.memory i.dest
      ((toBe8 (readVal s i.src1 i.b1)).drop (8 - i.b1))).drop i.src1).take i.b1)) = _
    rw [slice_spliceList_disjoint _ _ _ _ _ (by omega) (by omega)]
    rfl
  have hss : spliceList
      (spliceList s.memory i.dest ((toBe8 (readVal s i.src1 i.b1)).drop (8 - i.b1)))
      i.dest ((toBe8 (readVal s i.src1 i.b1)).drop (8 - i.b1))
      = spliceList s.memory i.dest ((toBe8 (readVal s i.src1 i.b1)).drop (8 - i.b1)) :=
    spliceList_spliceList _ _ _ _ (by omega) rfl
  have e2 := executeInstruction_mov_eq
    { s with
      memory :=
        spliceList s.memory i.dest
          ((toBe8 (readVal s i.src1 i.b1)).drop (8 - i.b1)) } i hop
    (by dsimp only; omega) (by dsimp only; omega) (by dsimp only; omega)
    (by dsimp only; omega) h5 (by dsimp only; omega) (by dsimp only; omega)
  rw [e2, hread]
  dsimp only
  rw [hss]

theorem C7_mov_idempotent_disjoint_witness :
    ((⟨0x01, 1, 0, 0, 0, 0, 0, 4⟩ : Instruction).b0 = 0x01 ∧
      ((⟨0x01, 1, 0, 0, 0, 0, 0, 4⟩ : Instruction).src1 +
          (⟨0x01, 1, 0, 0, 0, 0, 0, 4⟩ : Instruction).b1 ≤
        (⟨0x01, 1, 0, 0, 0, 0, 0, 4⟩ : Instruction).dest ∨
       (⟨0x01, 1, 0, 0, 0, 0, 0, 4⟩ : Instruction).dest +
          (⟨0x01, 1, 0, 0, 0, 0, 0, 4⟩ : Instruction).b1 ≤
        (⟨0x01, 1, 0, 0, 0, 0, 0, 4⟩ : Instruction).src1)) ∧
    ∃ r : TransientState × Nat,
      executeInstruction (stateOf [9, 0, 0, 0, 0, 0, 0, 0])
          ⟨0x01, 1, 0, 0, 0, 0, 0, 4⟩ = some r ∧
      executeInstruction r.1 ⟨0x01, 1, 0, 0, 0, 0, 0, 4⟩ = some r :=
  ⟨⟨by decide, Or.inl (by decide)⟩,
    C7_mov_idempotent_disjoint (stateOf [9, 0, 0, 0, 0, 0, 0, 0])
      ⟨0x01, 1, 0, 0, 0, 0, 0, 4⟩
      (by decide) (by decide) (by decide) (by decide) (by decide) (by decide)
      (by decide) (by decide) (Or.inl (by decide))⟩

/-- C8: every instruction that `execute_instruction` completes without
trapping returns next program counter = current program counter + 8, unless
it is `hlt` (PC returned unchanged), an unconditional `jmp` (PC = the src1
address literal), or a `jie`/`jne` whose condition makes the branch taken
(PC = the src1 address literal). -/
theorem C8_pc_advance (s : TransientState) (i : Instruction) (s' : TransientState)
    (pc' : Nat) (h : executeInstruction s i = some (s', pc')) :
    pc' = s.program_counter + 8 ∨
      (i.b0 = 0xFF ∧ pc' = s.program_counter) ∨
      (i.b0 = 0x0A ∧ pc' = i.src1) ∨
      (i.b0 = 0x0B ∧ readVal s i.src2 i.b1 ≠ 0 ∧ pc' = i.src1) ∨
      (i.b0 = 0x0C ∧ readVal s i.src2 i.b1 = 0 ∧ pc' = i.src1) :=
  (executeInstruction_char s i s' pc' h).2.2

theorem C8_pc_advance_witness :
    executeInstruction (newState 16) ⟨0xFF, 0, 0, 0, 0, 0, 0, 0⟩ =
      some (newState 16, 0) ∧
    ((0 : Nat) = (newState 16).program_counter + 8 ∨
      ((⟨0xFF, 0, 0, 0, 0, 0, 0, 0⟩ : Instruction).b0 = 0xFF ∧
        (0 : Nat) = (newState 16).program_counter) ∨
      ((⟨0xFF, 0, 0, 0, 0, 0, 0, 0⟩ : Instruction).b0 = 0x0A ∧
        (0 : Nat) = (⟨0xFF, 0, 0, 0, 0, 0, 0, 0⟩ : Instruction).src1) ∨
      ((⟨0xFF, 0, 0, 0, 0, 0, 0, 0⟩ : Instruction).b0 = 0x0B ∧
        readVal (newState 16) (⟨0xFF, 0, 0, 0, 0, 0, 0, 0⟩ : Instruction).src2
          (⟨0xFF, 0, 0, 0, 0, 0, 0, 0⟩ : Instruction).b1 ≠ 0 ∧
        (0 : Nat) = (⟨0xFF, 0, 0, 0, 0, 0, 0, 0⟩ : Instruction).src1) ∨
      ((⟨0xFF, 0, 0, 0, 0, 0, 0, 0⟩ : Instruction).b0 = 0x0C ∧
        readVal (newState 16) (⟨0xFF, 0, 0, 0, 0, 0, 0, 0⟩ : Instruction).src2
          (⟨0xFF, 0, 0, 0, 0, 0, 0, 0⟩ : Instruction).b1 = 0 ∧
        (0 : Nat) = (⟨0xFF, 0, 0, 0, 0, 0, 0, 0⟩ : Instruction).src1)) :=
  ⟨by decide, C8_pc_advance (newState 16) ⟨0xFF, 0, 0, 0, 0, 0, 0, 0⟩
    (newState 16) 0 (by decide)⟩

/-- C9: every destination store goes through `memory_write`, whose guard
demands `address + size` strictly below the capacity — in particular a write
whose last byte would be the final memory byte (`address + size = capacity`)
traps — and consequently a successfully executed instruction never changes
the last byte of VM memory (nor the memory length), even though that byte
lies within the memory array. -/
theorem C9_no_write_to_last_byte (s : TransientState) (i : Instruction)
    (s' : TransientState) (pc' : Nat)
    (h : executeInstruction s i = some (s', pc')) :
    (∀ (mem : List Nat) (a : Nat) (data : List Nat) (n : Nat),
        mem.length ≤ a + n → memory_write mem a data n = none) ∧
    s'.memory.length = s.memory.length ∧
    s'.memory[s.memory.length - 1]? = s.memory[s.memory.length - 1]? := by
  refine ⟨fun mem a data n hh => memory_write_none mem a data n hh, ?_, ?_⟩
  · exact (executeInstruction_char s i s' pc' h).2.1.1
  · exact (executeInstruction_char s i s' pc' h).2.1.2.1

theorem C9_no_write_to_last_byte_witness :
    executeInstruction (stateOf [7, 0, 0, 0, 0, 0, 0, 0]) ⟨0x01, 1, 0, 0, 0, 0, 0, 1⟩ =
      some (stateOf [7, 7, 0, 0, 0, 0, 0, 0], 8) ∧
    ((∀ (mem : List Nat) (a : Nat) (data : List Nat) (n : Nat),
        mem.length ≤ a + n → memory_write mem a data n = none) ∧
      (stateOf [7, 7, 0, 0, 0, 0, 0, 0]).memory.length =
        (stateOf [7, 0, 0, 0, 0, 0, 0, 0]).memory.length ∧
      (stateOf [7, 7, 0, 0, 0, 0, 0, 0]).memory[(stateOf
          [7, 0, 0, 0, 0, 0, 0, 0]).memory.length - 1]? =
        (stateOf [7, 0, 0, 0, 0, 0, 0, 0]).memory[(stateOf
          [7, 0, 0, 0, 0, 0, 0, 0]).memory.length - 1]?) :=
  ⟨by decide,
    C9_no_write_to_last_byte (stateOf [7, 0, 0, 0, 0, 0, 0, 0])
      ⟨0x01, 1, 0, 0, 0, 0, 0, 1⟩ (stateOf [7, 7, 0, 0, 0, 0, 0, 0]) 8 (by decide)⟩

/-- C10: `execute_instruction` bounds-checks all three operand addresses and
loads `size` bytes from both sources before dispatching on the opcode — for
every opcode, including `jmp` and `hlt` — so any instruction whose size byte
exceeds 8 (or whose operands are out of range) traps regardless of its
opcode; correspondingly `u64_pad_be` is only defined for inputs of at most 8
bytes. -/
theorem C10_prevalidation_trap (s : TransientState) (i : Instruction)
    (h : 8 < i.b1 ∨ s.memory.length ≤ i.src1 ∨ s.memory.length ≤ i.src2 ∨
      s.memory.length ≤ i.dest) :
    executeInstruction s i = none ∧
      ∀ data : List Nat, 8 < data.length → u64_pad_be data = none := by
  constructor
  · cases he : executeInstruction s i with
    | none => rfl
    | some r =>
      obtain ⟨⟨k1, k2, k3, k4, k5, k6⟩, -, -⟩ :=
        executeInstruction_char s i r.1 r.2 (by rw [he])
      exfalso
      rcases h with h | h | h | h <;> omega
  · intro data hd
    unfold u64_pad_be
    rw [if_neg (by omega)]

theorem C10_prevalidation_trap_witness :
    (8 < (⟨0xFF, 9, 0, 0, 0, 0, 0, 0⟩ : Instruction).b1 ∨
      (newState 8).memory.length ≤ (⟨0xFF, 9, 0, 0, 0, 0, 0, 0⟩ : Instruction).src1 ∨
      (newState 8).memory.length ≤ (⟨0xFF, 9, 0, 0, 0, 0, 0, 0⟩ : Instruction).src2 ∨
      (newState 8).memory.length ≤ (⟨0xFF, 9, 0, 0, 0, 0, 0, 0⟩ : Instruction).dest) ∧
    (executeInstruction (newState 8) ⟨0xFF, 9, 0, 0, 0, 0, 0, 0⟩ = none ∧
      ∀ data : List Nat, 8 < data.length → u64_pad_be data = none) :=
  ⟨Or.inl (by decide),
    C10_prevalidation_trap (newState 8) ⟨0xFF, 9, 0, 0, 0, 0, 0, 0⟩ (Or.inl (by decide))⟩

/-! ## Claim theorems (assembler) -/

/-- C1 (the code refutes the claimed behaviour): assembling the one-line
source `hlt` does not produce `FF 00 00 00 00 00 00 00` — pass 8 parses the
numeric suffix of the first token before looking at the mnemonic, the suffix
of `hlt` is empty, and the empty parse fails with diagnostic E003.  The
suffixed form `hlt0` does assemble to exactly the claimed 8-byte image,
exhibiting the intended encoding. -/
theorem C1_bare_hlt_is_E003 :
    assemble [S "hlt"] = .error .E003 ∧
    assemble [S "hlt0"] = .ok [0xFF, 0, 0, 0, 0, 0, 0, 0] :=
  ⟨rfl, rfl⟩

/-- C3 (the code refutes the claim): the emitted image is a nontrivial
function of the iteration order of the intermediates map in pass 3.  For the
two-immediate source, pass 2 succeeds, both the collected order and its
reverse are iteration orders (permutations) of the same map, both assemble
successfully, and the two images differ byte-wise.  Since the Rust map is a
`std::collections::HashMap` whose iteration order is not fixed across runs,
the assembler does not guarantee byte-identical output across runs. -/
theorem C3_image_depends_on_intern_order :
    pass2 (pass1 twoImmSrc) = .ok twoImmInters ∧
    twoImmInters.reverse.Perm twoImmInters ∧
    assembleWithOrderOk twoImmInters (pass1 twoImmSrc) = true ∧
    assembleWithOrderOk twoImmInters.reverse (pass1 twoImmSrc) = true ∧
    assembleWithOrderBytes twoImmInters (pass1 twoImmSrc) ≠
      assembleWithOrderBytes twoImmInters.reverse (pass1 twoImmSrc) :=
  ⟨rfl, List.reverse_perm twoImmInters, rfl, rfl, by decide⟩

theorem genOp_length (op : Operation) : (genOp op).length = 8 := by
  cases op <;> rfl

theorem codegen_text_length (ast : List Operation) (init : List Nat) :
    (ast.foldl (fun img op => img ++ genOp op) init).length =
      init.length + 8 * ast.length := by
  induction ast generalizing init with
  | nil => simp
  | cons a t ih =>
    simp only [List.foldl_cons]
    rw [ih, List.length_append, genOp_length]
    simp [List.length_cons]
    omega

theorem writeVars_length (mm : MemMap) (img img' : List Nat)
    (h : writeVars mm img = .ok img') : img'.length = img.length := by
  induction mm generalizing img with
  | nil =>
    unfold writeVars at h
    injection h with hh
    rw [← hh]
  | cons e rest ih =>
    obtain ⟨nm, addr, value, size⟩ := e
    unfold writeVars at h
    split_ifs at h with hs ha
    · have hw : ((toBe8 value).drop (8 - size)).length = size :=
        toBe8_drop_length _ _ hs
    
      rw [ih _ h, spliceList_length _ _ _ (by omega)]

/-- C6: whenever codegen completes without a panic, the image length is
`8 × N + Σ widths` — `N` the number of instructions, `Σ widths` the total of
the byte widths recorded in the memory map (synthetic immediate variables
included, since they are ordinary map entries) — and every instruction record
contributes exactly 8 bytes. -/
theorem C6_image_length (ast : List Operation) (mm : MemMap) (img : List Nat)
    (h : codegen ast mm = .ok img) :
    img.length = 8 * ast.length + varSizeSum mm ∧
      ∀ op : Operation, (genOp op).length = 8 := by
  refine ⟨?_, genOp_length⟩
  unfold codegen at h
  rw [writeVars_length _ _ _ h, List.length_append, List.length_replicate,
    codegen_text_length]
  simp

theorem C6_image_length_witness :
    codegen [Operation.Hlt] [(S "x", 8, 5, 1)] = .ok [0xFF, 0, 0, 0, 0, 0, 0, 0, 5] ∧
    (([0xFF, 0, 0, 0, 0, 0, 0, 0, 5] : List Nat).length =
        8 * ([Operation.Hlt] : List Operation).length + varSizeSum [(S "x", 8, 5, 1)] ∧
      ∀ op : Operation, (genOp op).length = 8) :=
  ⟨rfl, C6_image_length [Operation.Hlt] [(S "x", 8, 5, 1)] _ rfl⟩

/-! ## Pass 7: scan-and-remove versus streaming -/

theorem pass7Stream_nil (jm : JMap) (c : Nat) : pass7Stream jm c [] = (jm, []) := rfl

theorem pass7Stream_cons (jm : JMap) (c : Nat) (l : Str) (ls : List Str) :
    pass7Stream jm c (l :: ls) =
      if strStarts (S "#") l then pass7Stream ((l.drop 1, c * 8) :: jm) c ls
      else ((pass7Stream jm (c + 1) ls).1, l :: (pass7Stream jm (c + 1) ls).2) := rfl

theorem findFirstTag_none (lines : List Str) (h : findFirstTag lines = none) :
    ∀ l ∈ lines, strStarts (S "#") l = false := by
  induction lines with
  | nil => intro l hl; cases hl
  | cons a t ih =>
    by_cases ha : strStarts (S "#") a = true
    · exfalso
      unfold findFirstTag at h
      rw [if_pos ha] at h
      exact Option.noConfusion h
    · have ht : findFirstTag t = none := by
        unfold findFirstTag at h
        rw [if_neg ha] at h
        cases hft : findFirstTag t with
        | none => rfl
        | some p =>
          obtain ⟨j, t0⟩ := p
          rw [hft] at h
          exact Option.noConfusion h
      intro l hl
      rcases List.mem_cons.mp hl with rfl | hl
      · simpa using ha
      · exact ih ht l hl

theorem findFirstTag_some (lines : List Str) (i : Nat) (t : Str)
    (h : findFirstTag lines = some (i, t)) :
    ∃ P rest, lines = P ++ t :: rest ∧ P.length = i ∧
      (∀ p ∈ P, strStarts (S "#") p = false) ∧ strStarts (S "#") t = true ∧
      removeAt lines i = P ++ rest := by
  induction lines generalizing i t with
  | nil => exact Option.noConfusion h
  | cons a rest0 ih =>
    unfold findFirstTag at h
    split_ifs at h with ha
    · obtain ⟨h1, h2⟩ := Prod.mk.injEq .. |>.mp (Option.some.injEq .. |>.mp h)
      subst h1
      subst h2
      refine ⟨[], rest0, rfl, rfl, ?_, ha, rfl⟩
      intro p hp
      cases hp
    · cases hft : findFirstTag rest0 with
      | none =>
        rw [hft] at h
        exact Option.noConfusion h
      | some p =>
        obtain ⟨j, t0⟩ := p
        rw [hft] at h
        obtain ⟨h1, h2⟩ := Prod.mk.injEq .. |>.mp (Option.some.injEq .. |>.mp h)
        subst h2
        obtain ⟨P, rest, hPr, hPl, hPtags, htag, hrem⟩ := ih j t0 hft
        refine ⟨a :: P, rest, by rw [hPr, List.cons_append], ?_, ?_, htag, ?_⟩
        · rw [List.length_cons, hPl, h1]
        · intro p hp
          rcases List.mem_cons.mp hp with rfl | hp
          · simpa using ha
          · exact hPtags p hp
        · rw [← h1]
          show a :: removeAt rest0 j = a :: P ++ rest
          rw [hrem, List.cons_append]

theorem pass7Stream_append_nonTags (P : List Str)
    (hP : ∀ p ∈ P, strStarts (S "#") p = false) :
    ∀ (jm : JMap) (c : Nat) (xs : List Str),
      pass7Stream jm c (P ++ xs) =
        ((pass7Stream jm (c + P.length) xs).1,
          P ++ (pass7Stream jm (c + P.length) xs).2) := by
  induction P with
  | nil => intro jm c xs; simp
  | cons a P0 ih =>
    intro jm c xs
    have ha : strStarts (S "#") a = false := hP a (by simp)
    rw [List.cons_append, pass7Stream_cons, if_neg (by simp [ha])]
    rw [ih (fun p hp => hP p (by simp [hp])) jm (c + 1) xs]
    have hc : c + 1 + P0.length = c + (a :: P0).length := by
      rw [List.length_cons]
      omega
    rw [hc]
    rfl

theorem pass7Stream_noTags (lines : List Str)
    (h : ∀ l ∈ lines, strStarts (S "#") l = false) :
    ∀ (jm : JMap) (c : Nat), pass7Stream jm c lines = (jm, lines) := by
  induction lines with
  | nil => intro jm c; rfl
  | cons a t ih =>
    intro jm c
    rw [pass7Stream_cons, if_neg (by simp [h a (by simp)])]
    rw [ih (fun l hl => h l (by simp [hl])) jm (c + 1)]

theorem pass7Go_stream (fuel : Nat) :
    ∀ (jm : JMap) (lines : List Str), lines.length ≤ fuel →
      pass7Go fuel jm lines = pass7Stream jm 0 lines := by
  induction fuel with
  | zero =>
    intro jm lines h
    have hnil : lines = [] := List.length_eq_zero.mp (by omega)
    subst hnil
    rfl
  | succ n ih =>
    intro jm lines hlen
    unfold pass7Go
    cases hft : findFirstTag lines with
    | none => rw [pass7Stream_noTags lines (findFirstTag_none lines hft) jm 0]
    | some p =>
      obtain ⟨i, t⟩ := p
      obtain ⟨P, rest, hPr, hPl, hPtags, htag, hrem⟩ := findFirstTag_some lines i t hft
      have hlen2 : (removeAt lines i).length ≤ n := by
        rw [hrem]
        have := congrArg List.length hPr
        simp only [List.length_append, List.length_cons] at this ⊢
        omega
      show pass7Go n ((t.drop 1, i * 8) :: jm) (removeAt lines i) = pass7Stream jm 0 lines
      rw [ih ((t.drop 1, i * 8) :: jm) (removeAt lines i) hlen2, hrem, hPr]
      rw [pass7Stream_append_nonTags P hPtags ((t.drop 1, i * 8) :: jm) 0 rest,
        pass7Stream_append_nonTags P hPtags jm 0 (t :: rest)]
      rw [pass7Stream_cons, if_pos htag, ← hPl]
      simp

theorem pass7Stream_snd (lines : List Str) :
    ∀ (jm : JMap) (c : Nat),
      (pass7Stream jm c lines).2 = lines.filter (fun l => !(strStarts (S "#") l)) := by
  induction lines with
  | nil => intro jm c; rfl
  | cons a t ih =>
    intro jm c
    rw [pass7Stream_cons]
    by_cases ha : strStarts (S "#") a = true
    · rw [if_pos ha, ih _ c, List.filter_cons]
      simp [ha]
    · have ha2 : strStarts (S "#") a = false := by simpa using ha
      rw [if_neg ha, List.filter_cons]
      simp only [ha2, Bool.not_false, if_true]
      rw [ih jm (c + 1)]

/-- C5: pass 7's repeated scan-and-remove tag resolution coincides with the
single streaming pass `pass7Stream` that treats tag lines as zero-length —
the same jump map is built (each tag `#name` bound, in textual order, to 8 ×
the number of non-tag lines preceding it, later duplicates overwriting
earlier ones), and the surviving lines are exactly the non-tag lines. -/
theorem C5_pass7_equals_streaming (lines : List Str) :
    pass7 lines = pass7Stream [] 0 lines ∧
    (pass7 lines).2 = lines.filter (fun l => !(strStarts (S "#") l)) := by
  have h : pass7 lines = pass7Stream [] 0 lines :=
    pass7Go_stream lines.length [] lines (Nat.le_refl _)
  exact ⟨h, by rw [h, pass7Stream_snd]⟩

end Transient
